import Mathlib

/-!
# Verification of the toki task tracker's data engine

A shallow embedding, in Lean 4, of the core data operations of the toki
todo manager: the data model (`internal/models/models.go`), the todo and
tag repository functions (`internal/db`), the SQLite schema's cascade
semantics (`internal/db/migrations.go`), the MCP tool handlers
(`internal/mcp/tools.go`), and the statistics aggregation
(`calculateStats` in the MCP resources file).

Modelling conventions:
* timestamps (`time.Time`) are integers; Go's `Before` is `<`;
* UUIDs and identifiers are their canonical lowercase ASCII strings, so
  Go's byte-length `len` coincides with `String.length` on the inputs at
  issue, and SQLite's `LIKE 'p%'` over these identifiers is prefix
  matching;
* the SQLite tables are Lean lists of rows; a query is a Lean function
  over that state; `fmt.Errorf` error values are modelled as structured
  error constructors carrying the data the message interpolates;
* `uuid.New()` / `time.Now()` are passed in as explicit parameters.
-/

set_option autoImplicit false

namespace Toki

/-- Embeds `models.Project` (models.go): id, unique name, optional
directory path, creation timestamp. -/
structure Project where
  id : String
  name : String
  directoryPath : Option String
  createdAt : Int
deriving Repr, DecidableEq

/-- Embeds `models.Todo` together with the `todos` table row of
migrations.go (which adds the `updated_at` column used by the db and
mcp layers). -/
structure Todo where
  id : String
  projectId : String
  description : String
  done : Bool
  priority : Option String
  notes : Option String
  createdAt : Int
  updatedAt : Int
  completedAt : Option Int
  dueDate : Option Int
deriving Repr, DecidableEq

/-- Embeds `models.Tag`: integer id (AUTOINCREMENT), unique name. -/
structure Tag where
  id : Int
  name : String
deriving Repr, DecidableEq

/-- Embeds `models.TodoTag`, one row of the `todo_tags` join table. -/
structure TodoTag where
  todoId : String
  tagId : Int
deriving Repr, DecidableEq

/-- The four tables of the SQLite database (migrations.go). -/
structure DB where
  projects : List Project
  todos : List Todo
  tags : List Tag
  todoTags : List TodoTag
deriving Repr, DecidableEq

/-- Embeds `models.NewTodo`: fresh todo with the given generated id and
current time, not done, no optional fields; the `updated_at` column is
left at the zero value (Go's `NewTodo` does not assign it). -/
def NewTodo (id projectId description : String) (now : Int) : Todo :=
  { id := id
    projectId := projectId
    description := description
    done := false
    priority := none
    notes := none
    createdAt := now
    updatedAt := 0
    completedAt := none
    dueDate := none }

/-- Embeds `(*Todo).MarkDone`: sets the flag and stamps the current time. -/
def MarkDone (t : Todo) (now : Int) : Todo :=
  { t with done := true, completedAt := some now }

/-- Embeds `(*Todo).MarkUndone`: clears the flag and the timestamp. -/
def MarkUndone (t : Todo) : Todo :=
  { t with done := false, completedAt := none }

/-! ## Identifier-prefix resolution (`db.GetTodoByPrefix`, todos.go) -/

/-- The three error outcomes of `db.GetTodoByPrefix`, as structured data:
`tooShort` is the validation error returned before the store is touched,
`notFound` carries the echoed prefix, and `ambiguous` carries the echoed
prefix and the first 8 characters of every colliding identifier, in the
order the message enumerates them. -/
inductive PrefixError where
  | tooShort
  | notFound (pfx : String)
  | ambiguous (pfx : String) (shortIds : List String)
deriving Repr, DecidableEq

/-- Models the SQL predicate `id LIKE pfx || '%'` of todos.go over the
canonical lowercase ASCII identifiers: the id starts with `pfx`,
character by character. -/
def likeMatch (pfx id : String) : Bool :=
  pfx.data.isPrefixOf id.data

/-- Models Go's `s[:8]` on the ASCII identifier strings at issue: the
first 8 characters. -/
def shortId (id : String) : String :=
  String.mk (id.data.take 8)

/-- Embeds `db.GetTodoByPrefix`: reject prefixes shorter than 6
characters before querying; then the `LIKE pfx%` query selects the todos
whose id starts with `pfx`; zero matches is not-found, a unique match is
returned, two or more matches is ambiguous with the 8-character short
ids of all matches. -/
def GetTodoByPrefix (todos : List Todo) (pfx : String) : Except PrefixError Todo :=
  if pfx.length < 6 then
    .error .tooShort
  else
    match todos.filter (fun t => likeMatch pfx t.id) with
    | [] => .error (.notFound pfx)
    | [t] => .ok t
    | ms => .error (.ambiguous pfx (ms.map (fun t => shortId t.id)))

/-! ## Completion-flag / completion-timestamp invariant -/

/-- The mutating todo operations, after creation, that touch the
completion state: `MarkDone` at some time, and `MarkUndone`. -/
inductive TodoOp where
  | markDone (now : Int)
  | markUndone
deriving Repr

/-- Apply one completion operation to a todo. -/
def applyOp (t : Todo) : TodoOp → Todo
  | .markDone now => MarkDone t now
  | .markUndone => MarkUndone t

/-- Apply a sequence of completion operations, oldest first. -/
def applyOps (t : Todo) (ops : List TodoOp) : Todo :=
  ops.foldl applyOp t

/-- The spec's invariant: the completion flag is set exactly when the
completion timestamp is present. -/
def completionInvariant (t : Todo) : Prop :=
  t.done = true ↔ t.completedAt ≠ none

/-- A concrete todo used to instantiate theorems with hypotheses. -/
def sampleTodoA : Todo :=
  { id := "abc12345-1111-2222-3333-444455556666"
    projectId := "00000000-0000-0000-0000-000000000001"
    description := "buy milk"
    done := false
    priority := none
    notes := none
    createdAt := 1
    updatedAt := 0
    completedAt := none
    dueDate := none }

/-- A second concrete todo whose id shares the 6-character prefix of
`sampleTodoA`. -/
def sampleTodoB : Todo :=
  { id := "abc123ff-7777-8888-9999-aaaabbbbcccc"
    projectId := "00000000-0000-0000-0000-000000000001"
    description := "walk dog"
    done := false
    priority := none
    notes := none
    createdAt := 2
    updatedAt := 0
    completedAt := none
    dueDate := none }

/-! ## Filtered listing (`db.ListTodos`, todos.go)

The SQL query is
`SELECT DISTINCT t.* FROM todos t [LEFT JOIN todo_tags tt ON t.id =
tt.todo_id LEFT JOIN tags tg ON tt.tag_id = tg.id] WHERE 1=1 [AND
t.project_id = ?] [AND t.done = ?] [AND t.priority = ?] [AND tg.name =
?] ORDER BY t.created_at DESC`, the joins and conjuncts present exactly
when the corresponding argument is non-nil.  We model it by the
standard relational reading: build the joined rows, apply the `WHERE`
conjunction, project the todo columns, eliminate duplicates
(`DISTINCT`), and sort by creation time descending. -/

/-- The rows the two `LEFT JOIN`s produce for one todo: one row per
association, carrying the joined tag's name (`none` when the
association's tag id matches no tag), and a single row with a null name
when the todo has no associations. -/
def joinRow (s : DB) (t : Todo) : List (Todo × Option String) :=
  let assoc := s.todoTags.filter (fun tt => tt.todoId == t.id)
  if assoc.isEmpty then [(t, none)]
  else assoc.map (fun tt => (t, (s.tags.find? (fun x => x.id == tt.tagId)).map Tag.name))

/-- The `FROM` clause of `ListTodos`: the plain todos table when no tag
filter is supplied (each row's tag-name column unused, hence `none`),
and the left-joined rows when one is. -/
def fromTodosJoin (s : DB) (tag : Option String) : List (Todo × Option String) :=
  match tag with
  | none => s.todos.map (fun t => (t, none))
  | some _ => s.todos.flatMap (joinRow s)

/-- The `WHERE` conjunction of `ListTodos`: each conjunct is present
exactly when its filter argument is. -/
def whereTodo (projectId : Option String) (done : Option Bool) (priority : Option String)
    (tag : Option String) (row : Todo × Option String) : Bool :=
  (match projectId with
   | none => true
   | some p => row.1.projectId == p) &&
  (match done with
   | none => true
   | some b => row.1.done == b) &&
  (match priority with
   | none => true
   | some p => row.1.priority == some p) &&
  (match tag with
   | none => true
   | some nm => row.2 == some nm)

/-- `ORDER BY t.created_at DESC`: row `a` may precede row `b` when
`b.createdAt ≤ a.createdAt`. -/
def createdDesc (a b : Todo) : Prop :=
  b.createdAt ≤ a.createdAt

instance : DecidableRel createdDesc :=
  fun a b => (inferInstance : Decidable (b.createdAt ≤ a.createdAt))

instance : IsTotal Todo createdDesc :=
  ⟨fun a b => le_total b.createdAt a.createdAt⟩

instance : IsTrans Todo createdDesc :=
  ⟨fun _ _ _ hab hbc => le_trans hbc hab⟩

/-- Embeds `db.ListTodos`: joined rows, `WHERE` filter, projection to
the todo columns, `DISTINCT`, `ORDER BY created_at DESC`. -/
def ListTodos (s : DB) (projectId : Option String) (done : Option Bool)
    (priority : Option String) (tag : Option String) : List Todo :=
  (((fromTodosJoin s tag).filter (whereTodo projectId done priority tag)).map
      Prod.fst).dedup.insertionSort createdDesc

/-- The conjunction of the supplied predicates, read off the query: a
supplied project id, done flag or priority must equal the todo's
column, and a supplied tag name requires an association row of this
todo whose joined tag is named it. -/
def MatchesFilters (s : DB) (projectId : Option String) (done : Option Bool)
    (priority : Option String) (tag : Option String) (t : Todo) : Prop :=
  (∀ p, projectId = some p → t.projectId = p) ∧
  (∀ b, done = some b → t.done = b) ∧
  (∀ p, priority = some p → t.priority = some p) ∧
  (∀ nm, tag = some nm → ∃ tt ∈ s.todoTags, tt.todoId = t.id ∧
    (s.tags.find? (fun x => x.id == tt.tagId)).map Tag.name = some nm)

/-! ## Cascading project deletion (`db.DeleteProject`, migrations.go)

`DeleteProject` runs `DELETE FROM projects WHERE id = ?`; with
`PRAGMA foreign_keys = ON` (db.go) the schema's `ON DELETE CASCADE`
constraints delete every todo whose `project_id` is the deleted id and
every `todo_tags` row whose `todo_id` is one of those todos' ids; the
`tags` table is untouched. -/

/-- Embeds `db.DeleteProject` together with the cascade semantics of
the schema. -/
def DeleteProject (s : DB) (pid : String) : DB :=
  let deletedIds := (s.todos.filter (fun t => t.projectId == pid)).map Todo.id
  { projects := s.projects.filter (fun p => !(p.id == pid))
    todos := s.todos.filter (fun t => !(t.projectId == pid))
    tags := s.tags
    todoTags := s.todoTags.filter (fun tt => !(decide (tt.todoId ∈ deletedIds))) }

/-! ## Label association (`db.GetOrCreateTag` / `db.AddTagToTodo`, tags.go) -/

/-- Models SQLite AUTOINCREMENT for the `tags` table: one more than the
largest id ever handed out (here: present). -/
def maxTagId (tags : List Tag) : Int :=
  tags.foldl (fun m tg => max m tg.id) 0

/-- Embeds `db.GetOrCreateTag`: return the tag named `nm` if one
exists, otherwise insert a fresh one and return it. -/
def GetOrCreateTag (s : DB) (nm : String) : Tag × DB :=
  match s.tags.find? (fun tg => tg.name == nm) with
  | some tg => (tg, s)
  | none =>
      let tg : Tag := { id := maxTagId s.tags + 1, name := nm }
      (tg, { s with tags := s.tags ++ [tg] })

/-- Embeds `db.AddTagToTodo`: get-or-create the tag, then
`INSERT OR IGNORE` the `(todo_id, tag_id)` row — the insert is skipped
when the primary-key pair is already present. -/
def AddTagToTodo (s : DB) (todoId nm : String) : DB :=
  if (GetOrCreateTag s nm).2.todoTags.any
      (fun tt => tt.todoId == todoId && tt.tagId == (GetOrCreateTag s nm).1.id) then
    (GetOrCreateTag s nm).2
  else
    { (GetOrCreateTag s nm).2 with todoTags := (GetOrCreateTag s nm).2.todoTags ++
        [{ todoId := todoId, tagId := (GetOrCreateTag s nm).1.id }] }

/-- The number of association rows recording the pair of the todo `tid`
and the label named `nm` (a row counts when some tag row carries its
tag id and that name). -/
def pairRowCount (s : DB) (tid nm : String) : Nat :=
  (s.todoTags.filter (fun tt => tt.todoId == tid &&
    s.tags.any (fun tg => tg.id == tt.tagId && tg.name == nm))).length

/-! ## MCP tool handlers (tools.go)

Handlers take the database state plus the tool's named arguments and
return the new state (or a structured error).  `uuid.Parse` format
checking and RFC3339 due-date parsing are elided: identifiers are the
already-parsed canonical strings and due dates the already-parsed
timestamps. -/

/-- The structured errors the embedded handlers return. -/
inductive McpError where
  | todoNotFound (todoId : String)
  | projectNotFound (projectId : String)
  | invalidPriority (p : String)
deriving Repr, DecidableEq

/-- Embeds `db.GetTodoByID`: the row with the given id. -/
def GetTodoByID (todos : List Todo) (id : String) : Option Todo :=
  todos.find? (fun t => t.id == id)

/-- The column assignments of `db.UpdateTodo`'s `UPDATE todos SET ...`:
description, done, priority, notes, updated_at, completed_at, due_date
are written; id, project_id, created_at are not. -/
def overwrite (t u : Todo) : Todo :=
  { t with
    description := u.description
    done := u.done
    priority := u.priority
    notes := u.notes
    updatedAt := u.updatedAt
    completedAt := u.completedAt
    dueDate := u.dueDate }

/-- Embeds `db.UpdateTodo`: update the listed columns of every row
whose id matches. -/
def UpdateTodo (s : DB) (u : Todo) : DB :=
  { s with todos := s.todos.map (fun t => if t.id == u.id then overwrite t u else t) }

/-- Embeds `handleMarkDone` (tools.go): fetch by id, `MarkDone`, write
back with `UpdateTodo`. -/
def handleMarkDone (s : DB) (todoId : String) (now : Int) : Except McpError DB :=
  match GetTodoByID s.todos todoId with
  | none => .error (.todoNotFound todoId)
  | some todo => .ok (UpdateTodo s (MarkDone todo now))

/-- Embeds `handleMarkUndone` (tools.go): fetch by id, `MarkUndone`,
write back with `UpdateTodo`. -/
def handleMarkUndone (s : DB) (todoId : String) : Except McpError DB :=
  match GetTodoByID s.todos todoId with
  | none => .error (.todoNotFound todoId)
  | some todo => .ok (UpdateTodo s (MarkUndone todo))

/-- Embeds `validatePriority` (tools.go): nil passes, otherwise the
value must be low, medium or high. -/
def validatePriority (p : Option String) : Bool :=
  match p with
  | none => true
  | some v => v == "low" || v == "medium" || v == "high"

/-- The field updates `handleUpdateTodo` applies to the fetched todo:
each provided argument replaces its field, and `updated_at` is set to
the current time (`todo.UpdatedAt = time.Now()`). -/
def applyUpdates (todo : Todo) (description : Option String) (priority : Option String)
    (notes : Option String) (dueDate : Option Int) (now : Int) : Todo :=
  let t1 := match description with
    | none => todo
    | some d => { todo with description := d }
  let t2 := match priority with
    | none => t1
    | some _ => { t1 with priority := priority }
  let t3 := match notes with
    | none => t2
    | some _ => { t2 with notes := notes }
  let t4 := match dueDate with
    | none => t3
    | some _ => { t3 with dueDate := dueDate }
  { t4 with updatedAt := now }

/-- Embeds `handleUpdateTodo` (tools.go): fetch by id, validate the
priority, apply the provided field updates, stamp `updated_at`, write
back. -/
def handleUpdateTodo (s : DB) (todoId : String) (description : Option String)
    (priority : Option String) (notes : Option String) (dueDate : Option Int)
    (now : Int) : Except McpError DB :=
  match GetTodoByID s.todos todoId with
  | none => .error (.todoNotFound todoId)
  | some todo =>
      if validatePriority priority then
        .ok (UpdateTodo s (applyUpdates todo description priority notes dueDate now))
      else
        .error (.invalidPriority (priority.getD ""))

/-! ## Statistics aggregation (`calculateStats`, resources.go) -/

/-- The summary block of the stats resource: total / pending /
completed / overdue counts. -/
structure StatsSummary where
  totalTodos : Nat
  pending : Nat
  completed : Nat
  overdue : Nat
deriving Repr, DecidableEq

/-- One iteration of `calculateStats`'s loop over the todos: bump
completed or pending by the done flag, and bump overdue when the todo
is not done, has a due date, and that date is strictly before `now`
(Go's `todo.DueDate.Before(now)`, a full-timestamp comparison). -/
def statsStep (now : Int) (acc : StatsSummary) (t : Todo) : StatsSummary :=
  let acc1 := if t.done then { acc with completed := acc.completed + 1 }
              else { acc with pending := acc.pending + 1 }
  if !t.done && t.dueDate.any (fun d => decide (d < now)) then
    { acc1 with overdue := acc1.overdue + 1 }
  else acc1

/-- The loop of `calculateStats`: the total is the length of the
fetched list, the other counters start at zero and are accumulated in
one pass. -/
def calculateSummary (todos : List Todo) (now : Int) : StatsSummary :=
  todos.foldl (statsStep now)
    { totalTodos := todos.length, pending := 0, completed := 0, overdue := 0 }

/-- Embeds the summary part of `calculateStats` (resources.go): fetch
all todos through `db.ListTodos` with no filters and scan them once. -/
def calculateStats (s : DB) (now : Int) : StatsSummary :=
  calculateSummary (ListTodos s none none none none) now

/-- A concrete pending todo with last-modified timestamp 5, for
instantiating the handler theorems. -/
def sampleTodoC : Todo :=
  { id := "cccc1111-2222-3333-4444-555566667777"
    projectId := "00000000-0000-0000-0000-000000000001"
    description := "write report"
    done := false
    priority := none
    notes := none
    createdAt := 1
    updatedAt := 5
    completedAt := none
    dueDate := none }

/-- A concrete already-completed todo (completed at time 3). -/
def sampleTodoD : Todo :=
  { id := "dddd1111-2222-3333-4444-555566667777"
    projectId := "00000000-0000-0000-0000-000000000001"
    description := "ship release"
    done := true
    priority := none
    notes := none
    createdAt := 1
    updatedAt := 2
    completedAt := some 3
    dueDate := none }

/-- A database whose todos table holds `sampleTodoC` and `sampleTodoD`. -/
def sampleDB : DB :=
  { projects := []
    todos := [sampleTodoC, sampleTodoD]
    tags := []
    todoTags := [] }

/-! ## Task creation (`handleAddTodo`, tools.go; `addCmd`, add.go) -/

/-- Embeds `models.NewProject` with the generated id and time made
explicit. -/
def NewProject (id name : String) (directoryPath : Option String) (now : Int) : Project :=
  { id := id, name := name, directoryPath := directoryPath, createdAt := now }

/-- Embeds `db.GetProjectByID`. -/
def GetProjectByID (projects : List Project) (id : String) : Option Project :=
  projects.find? (fun p => p.id == id)

/-- Embeds `db.GetProjectByName`. -/
def GetProjectByName (projects : List Project) (name : String) : Option Project :=
  projects.find? (fun p => p.name == name)

/-- Embeds `db.CreateProject`: `INSERT INTO projects`. -/
def CreateProject (s : DB) (p : Project) : DB :=
  { s with projects := s.projects ++ [p] }

/-- Embeds `db.CreateTodo`: `INSERT INTO todos`. -/
def CreateTodo (s : DB) (t : Todo) : DB :=
  { s with todos := s.todos ++ [t] }

/-- Embeds `getOrCreateDefaultProject` (tools.go): return the project
named "default", creating it first when absent. -/
def getOrCreateDefaultProject (s : DB) (newProjectId : String) (now : Int) : String × DB :=
  match GetProjectByName s.projects "default" with
  | some p => (p.id, s)
  | none =>
      let p := NewProject newProjectId "default" none now
      (p.id, CreateProject s p)

/-- Embeds `resolveProjectID` (tools.go): a supplied non-empty project
id must exist; otherwise fall back to the auto-created "default"
project. -/
def resolveProjectID (s : DB) (projectId : Option String) (newProjectId : String)
    (now : Int) : Except McpError (String × DB) :=
  match projectId with
  | some pid =>
      if pid ≠ "" then
        match GetProjectByID s.projects pid with
        | some p => .ok (p.id, s)
        | none => .error (.projectNotFound pid)
      else .ok (getOrCreateDefaultProject s newProjectId now)
  | none => .ok (getOrCreateDefaultProject s newProjectId now)

/-- Embeds `createTodoWithTags` (tools.go): build the todo from the
input fields, insert it, then associate each requested tag. -/
def createTodoWithTags (s : DB) (projectId description : String)
    (priority notes : Option String) (tags : List String) (dueDate : Option Int)
    (newTodoId : String) (now : Int) : Todo × DB :=
  let todo := { NewTodo newTodoId projectId description now with
    priority := priority, notes := notes, dueDate := dueDate }
  let s1 := CreateTodo s todo
  (todo, tags.foldl (fun st tag => AddTagToTodo st todo.id tag) s1)

/-- Embeds `handleAddTodo` (tools.go): resolve the project, validate
the priority, parse the due date, create the todo with its tags.  Note
there is no check on the description. -/
def handleAddTodo (s : DB) (description : String) (projectId : Option String)
    (priority : Option String) (tags : List String) (notes : Option String)
    (dueDate : Option Int) (newProjectId newTodoId : String) (now : Int) :
    Except McpError (Todo × DB) :=
  match resolveProjectID s projectId newProjectId now with
  | .error e => .error e
  | .ok (pid, s1) =>
      if validatePriority priority then
        .ok (createTodoWithTags s1 pid description priority notes tags dueDate newTodoId now)
      else
        .error (.invalidPriority (priority.getD ""))

/-- Embeds the description validation of the CLI `addCmd` (add.go):
`len(description) < 3` is rejected before any write. -/
def addCmdAccepts (description : String) : Bool :=
  !(description.length < 3)

/-- The database holding only the "default" project, as
`getOrCreateDefaultProject` would have created it. -/
def sampleDefaultDB : DB :=
  { projects := [NewProject "00000000-0000-0000-0000-000000000001" "default" none 0]
    todos := []
    tags := []
    todoTags := [] }

lemma completionInvariant_applyOp (t : Todo) (op : TodoOp)
    (_h : completionInvariant t) : completionInvariant (applyOp t op) := by
  cases op with
  | markDone now => simp [applyOp, MarkDone, completionInvariant]
  | markUndone => simp [applyOp, MarkUndone, completionInvariant]

lemma completionInvariant_applyOps (t : Todo) (ops : List TodoOp)
    (h : completionInvariant t) : completionInvariant (applyOps t ops) := by
  induction ops generalizing t with
  | nil => exact h
  | cons op ops ih =>
      exact ih (applyOp t op) (completionInvariant_applyOp t op h)

/-- C1: a prefix of fewer than 6 characters is rejected with the
validation error, independently of the store's contents; for a 6+
character prefix, if exactly one todo id starts with the prefix that
todo is returned, if none does the result is the not-found error, and
if two or more do the result is the ambiguous error enumerating the
first 8 characters of every colliding identifier. -/
theorem getTodoByPrefix_resolution_spec (todos : List Todo) (pfx : String) :
    (pfx.length < 6 → GetTodoByPrefix todos pfx = .error .tooShort) ∧
    (6 ≤ pfx.length →
      (todos.filter (fun t => likeMatch pfx t.id) = [] →
        GetTodoByPrefix todos pfx = .error (.notFound pfx)) ∧
      (∀ t, todos.filter (fun t => likeMatch pfx t.id) = [t] →
        GetTodoByPrefix todos pfx = .ok t) ∧
      (2 ≤ (todos.filter (fun t => likeMatch pfx t.id)).length →
        GetTodoByPrefix todos pfx = .error (.ambiguous pfx
          ((todos.filter (fun t => likeMatch pfx t.id)).map (fun t => shortId t.id))))) := by
  constructor
  · intro h
    simp [GetTodoByPrefix, h]
  · intro h
    have hnot : ¬ pfx.length < 6 := by omega
    refine ⟨?_, ?_, ?_⟩
    · intro hemp
      simp [GetTodoByPrefix, hnot, hemp]
    · intro t ht
      simp [GetTodoByPrefix, hnot, ht]
    · intro hlen
      unfold GetTodoByPrefix
      simp only [hnot, if_false]
      match hm : todos.filter (fun t => likeMatch pfx t.id) with
      | [] => rw [hm] at hlen; simp at hlen
      | [t] => rw [hm] at hlen; simp at hlen
      | a :: b :: rest => rw [hm]

/-- Witness for C1: each branch of the resolution theorem at concrete
inputs: a 3-character prefix is rejected whatever the store holds, a
unique 6-character match is returned, and a 6-character prefix shared
by two todos yields the ambiguous error listing both 8-character short
ids. -/
theorem getTodoByPrefix_resolution_witness :
    GetTodoByPrefix [sampleTodoA] "abc" = .error .tooShort ∧
    GetTodoByPrefix [sampleTodoA] "abc123" = .ok sampleTodoA ∧
    GetTodoByPrefix [sampleTodoA, sampleTodoB] "abc123" =
      .error (.ambiguous "abc123" ["abc12345", "abc123ff"]) := by
  refine ⟨?_, ?_, ?_⟩
  · exact (getTodoByPrefix_resolution_spec [sampleTodoA] "abc").1 (by decide)
  · exact ((getTodoByPrefix_resolution_spec [sampleTodoA] "abc123").2
      (by decide)).2.1 sampleTodoA (by decide)
  · have h := ((getTodoByPrefix_resolution_spec [sampleTodoA, sampleTodoB] "abc123").2
      (by decide)).2.2 (by decide)
    simpa using h

/-- C2: a freshly created todo is not done and has no completion
timestamp, `MarkDone` sets the flag and stamps the given time,
`MarkUndone` clears both, and after any sequence of these operations
applied to a new todo the completion flag is set exactly when the
completion timestamp is present. -/
theorem completion_flag_timestamp_invariant (id pid desc : String) (c : Int)
    (ops : List TodoOp) :
    ((NewTodo id pid desc c).done = false ∧ (NewTodo id pid desc c).completedAt = none) ∧
    (∀ t now, (MarkDone t now).done = true ∧ (MarkDone t now).completedAt = some now) ∧
    (∀ t, (MarkUndone t).done = false ∧ (MarkUndone t).completedAt = none) ∧
    completionInvariant (applyOps (NewTodo id pid desc c) ops) := by
  refine ⟨⟨rfl, rfl⟩, fun t now => ⟨rfl, rfl⟩, fun t => ⟨rfl, rfl⟩, ?_⟩
  exact completionInvariant_applyOps _ ops (by simp [completionInvariant, NewTodo])

lemma whereTodo_eq_true (projectId : Option String) (done : Option Bool)
    (priority : Option String) (tag : Option String) (row : Todo × Option String) :
    whereTodo projectId done priority tag row = true ↔
      (∀ p, projectId = some p → row.1.projectId = p) ∧
      (∀ b, done = some b → row.1.done = b) ∧
      (∀ p, priority = some p → row.1.priority = some p) ∧
      (∀ nm, tag = some nm → row.2 = some nm) := by
  cases projectId <;> cases done <;> cases priority <;> cases tag <;>
    simp [whereTodo, and_assoc]

lemma joinRow_fst {s : DB} {a : Todo} {row : Todo × Option String}
    (h : row ∈ joinRow s a) : row.1 = a := by
  unfold joinRow at h
  by_cases he : (s.todoTags.filter (fun tt => tt.todoId == a.id)).isEmpty
  · rw [if_pos he, List.mem_singleton] at h
    rw [h]
  · rw [if_neg he, List.mem_map] at h
    obtain ⟨tt, _, rfl⟩ := h
    rfl

lemma joinRow_snd_iff (s : DB) (a : Todo) (nm : String) :
    (∃ row ∈ joinRow s a, row.2 = some nm) ↔
      ∃ tt ∈ s.todoTags, tt.todoId = a.id ∧
        (s.tags.find? (fun x => x.id == tt.tagId)).map Tag.name = some nm := by
  unfold joinRow
  by_cases he : (s.todoTags.filter (fun tt => tt.todoId == a.id)).isEmpty
  · rw [if_pos he]
    rw [List.isEmpty_iff] at he
    constructor
    · rintro ⟨row, hrow, h2⟩
      rw [List.mem_singleton] at hrow
      rw [hrow] at h2
      simp at h2
    · rintro ⟨tt, htt, hid, -⟩
      have hmem : tt ∈ s.todoTags.filter (fun tt => tt.todoId == a.id) :=
        List.mem_filter.mpr ⟨htt, by simp [hid]⟩
      rw [he] at hmem
      simp at hmem
  · rw [if_neg he]
    constructor
    · rintro ⟨row, hrow, h2⟩
      rw [List.mem_map] at hrow
      obtain ⟨tt, httmem, rfl⟩ := hrow
      rw [List.mem_filter] at httmem
      exact ⟨tt, httmem.1, by simpa using httmem.2, h2⟩
    · rintro ⟨tt, htt, hid, hname⟩
      exact ⟨(a, (s.tags.find? (fun x => x.id == tt.tagId)).map Tag.name),
        List.mem_map.mpr ⟨tt, List.mem_filter.mpr ⟨htt, by simp [hid]⟩, rfl⟩, hname⟩

lemma mem_listTodos (s : DB) (projectId : Option String) (done : Option Bool)
    (priority : Option String) (tag : Option String) (t : Todo) :
    t ∈ ListTodos s projectId done priority tag ↔
      t ∈ s.todos ∧ MatchesFilters s projectId done priority tag t := by
  unfold ListTodos
  rw [(List.perm_insertionSort createdDesc _).mem_iff, List.mem_dedup, List.mem_map]
  simp only [MatchesFilters]
  cases tag with
  | none =>
      constructor
      · rintro ⟨row, hrow, rfl⟩
        rw [List.mem_filter] at hrow
        obtain ⟨hmem, hw⟩ := hrow
        rw [whereTodo_eq_true] at hw
        simp only [fromTodosJoin, List.mem_map] at hmem
        obtain ⟨a, ha, rfl⟩ := hmem
        exact ⟨ha, hw.1, hw.2.1, hw.2.2.1, by simp⟩
      · rintro ⟨hmem, h1, h2, h3, -⟩
        refine ⟨(t, none), ?_, rfl⟩
        rw [List.mem_filter]
        constructor
        · simp only [fromTodosJoin, List.mem_map]
          exact ⟨t, hmem, rfl⟩
        · rw [whereTodo_eq_true]
          exact ⟨h1, h2, h3, by simp⟩
  | some nm =>
      constructor
      · rintro ⟨row, hrow, rfl⟩
        rw [List.mem_filter] at hrow
        obtain ⟨hmem, hw⟩ := hrow
        rw [whereTodo_eq_true] at hw
        simp only [fromTodosJoin, List.mem_flatMap] at hmem
        obtain ⟨a, ha, hrowa⟩ := hmem
        have hfst := joinRow_fst hrowa
        rw [hfst] at hw ⊢
        refine ⟨ha, hw.1, hw.2.1, hw.2.2.1, ?_⟩
        intro nm' hnm'
        injection hnm' with hx
        subst hx
        exact (joinRow_snd_iff s a nm).mp ⟨row, hrowa, hw.2.2.2 nm rfl⟩
      · rintro ⟨hmem, h1, h2, h3, h4⟩
        obtain ⟨row, hrowmem, hrow2⟩ := (joinRow_snd_iff s t nm).mpr (h4 nm rfl)
        have hfst := joinRow_fst hrowmem
        refine ⟨row, ?_, hfst⟩
        rw [List.mem_filter]
        constructor
        · simp only [fromTodosJoin, List.mem_flatMap]
          exact ⟨t, hmem, hrowmem⟩
        · rw [whereTodo_eq_true, hfst]
          refine ⟨h1, h2, h3, fun nm' hx => ?_⟩
          injection hx with hx
          rw [← hx]
          exact hrow2

/-- C3: `ListTodos` returns exactly the todos satisfying the
conjunction of the supplied predicates, each at most once, sorted by
creation timestamp descending; with no predicates it returns exactly
the todos table. -/
theorem listTodos_filtering_spec (s : DB) (projectId : Option String) (done : Option Bool)
    (priority : Option String) (tag : Option String) :
    (∀ t, t ∈ ListTodos s projectId done priority tag ↔
      t ∈ s.todos ∧ MatchesFilters s projectId done priority tag t) ∧
    (ListTodos s projectId done priority tag).Nodup ∧
    (ListTodos s projectId done priority tag).Sorted createdDesc ∧
    (∀ t, t ∈ ListTodos s none none none none ↔ t ∈ s.todos) := by
  refine ⟨fun t => mem_listTodos s projectId done priority tag t, ?_, ?_, fun t => ?_⟩
  · exact (List.perm_insertionSort createdDesc _).symm.nodup (List.nodup_dedup _)
  · exact List.sorted_insertionSort createdDesc _
  · rw [mem_listTodos]
    simp [MatchesFilters]

/-- C4: deleting a project removes exactly that project, exactly the
todos owned by it, and exactly the association rows of those todos,
and leaves the tags table unchanged. -/
theorem deleteProject_cascade_spec (s : DB) (pid : String) :
    (∀ p, p ∈ (DeleteProject s pid).projects ↔ p ∈ s.projects ∧ p.id ≠ pid) ∧
    (∀ t, t ∈ (DeleteProject s pid).todos ↔ t ∈ s.todos ∧ t.projectId ≠ pid) ∧
    (∀ tt, tt ∈ (DeleteProject s pid).todoTags ↔
      tt ∈ s.todoTags ∧ ¬ ∃ t ∈ s.todos, t.projectId = pid ∧ tt.todoId = t.id) ∧
    (DeleteProject s pid).tags = s.tags := by
  refine ⟨fun p => ?_, fun t => ?_, fun tt => ?_, rfl⟩
  · simp [DeleteProject, List.mem_filter]
  · simp [DeleteProject, List.mem_filter]
  · simp only [DeleteProject, List.mem_filter, Bool.not_eq_true', decide_eq_false_iff_not]
    constructor
    · rintro ⟨hmem, hnc⟩
      refine ⟨hmem, ?_⟩
      rintro ⟨t, htmem, hproj, hid⟩
      refine hnc (List.mem_map.mpr ?_)
      exact ⟨t, List.mem_filter.mpr ⟨htmem, by simp [hproj]⟩, hid.symm⟩
    · rintro ⟨hmem, hne⟩
      refine ⟨hmem, ?_⟩
      intro hc
      rw [List.mem_map] at hc
      obtain ⟨t, htf, hid⟩ := hc
      rw [List.mem_filter] at htf
      exact hne ⟨t, htf.1, by simpa using htf.2, hid.symm⟩

lemma find?_append_right {α : Type} (p : α → Bool) (l : List α) (a : α)
    (h : l.find? p = none) (ha : p a = true) : (l ++ [a]).find? p = some a := by
  induction l with
  | nil => simp [List.find?, ha]
  | cons b l ih =>
      rw [List.find?_eq_none] at h
      have hb : p b = false := by
        have := h b (List.mem_cons_self b l)
        simpa using this
      rw [List.cons_append, List.find?_cons_of_neg _ (by simp [hb])]
      exact ih (List.find?_eq_none.mpr fun x hx => h x (List.mem_cons_of_mem b hx))

lemma getOrCreateTag_todoTags (s : DB) (nm : String) :
    (GetOrCreateTag s nm).2.todoTags = s.todoTags := by
  unfold GetOrCreateTag
  rcases h : s.tags.find? (fun tg => tg.name == nm) with - | tg <;> simp [h]

lemma getOrCreateTag_find? (s : DB) (nm : String) :
    (GetOrCreateTag s nm).2.tags.find? (fun tg => tg.name == nm) =
      some (GetOrCreateTag s nm).1 := by
  unfold GetOrCreateTag
  rcases h : s.tags.find? (fun tg => tg.name == nm) with - | tg
  · simp only [h]
    exact find?_append_right _ s.tags _ h (by simp)
  · simp [h]

lemma getOrCreateTag_of_find? (s' : DB) (nm : String) (tg : Tag)
    (hf : s'.tags.find? (fun x => x.name == nm) = some tg) :
    GetOrCreateTag s' nm = (tg, s') := by
  unfold GetOrCreateTag
  rw [hf]

lemma addTagToTodo_idem (s : DB) (tid nm : String) :
    AddTagToTodo (AddTagToTodo s tid nm) tid nm = AddTagToTodo s tid nm := by
  rcases hg : GetOrCreateTag s nm with ⟨tg, s1⟩
  have hf : s1.tags.find? (fun x => x.name == nm) = some tg := by
    have h := getOrCreateTag_find? s nm
    rw [hg] at h
    exact h
  by_cases hc : s1.todoTags.any (fun tt => tt.todoId == tid && tt.tagId == tg.id)
  · have h1 : AddTagToTodo s tid nm = s1 := by
      unfold AddTagToTodo
      rw [hg]
      exact if_pos hc
    rw [h1]
    unfold AddTagToTodo
    rw [getOrCreateTag_of_find? s1 nm tg hf]
    exact if_pos hc
  · set s2 : DB := { s1 with
      todoTags := s1.todoTags ++ [({ todoId := tid, tagId := tg.id } : TodoTag)] } with hs2def
    have h1 : AddTagToTodo s tid nm = s2 := by
      unfold AddTagToTodo
      rw [hg]
      exact if_neg hc
    rw [h1]
    have hf2 : s2.tags.find? (fun x => x.name == nm) = some tg := hf
    have hc2 : s2.todoTags.any (fun tt => tt.todoId == tid && tt.tagId == tg.id) = true := by
      show (s1.todoTags ++ [({ todoId := tid, tagId := tg.id } : TodoTag)]).any
        (fun tt => tt.todoId == tid && tt.tagId == tg.id) = true
      rw [List.any_append]
      simp
    unfold AddTagToTodo
    rw [getOrCreateTag_of_find? s2 nm tg hf2]
    exact if_pos hc2

lemma getOrCreateTag_props (s : DB) (nm : String)
    (hnames : (s.tags.map Tag.name).Nodup) :
    (GetOrCreateTag s nm).1.name = nm ∧
    (GetOrCreateTag s nm).1 ∈ (GetOrCreateTag s nm).2.tags ∧
    (∀ tg2 ∈ (GetOrCreateTag s nm).2.tags, tg2.name = nm → tg2 = (GetOrCreateTag s nm).1) := by
  unfold GetOrCreateTag
  rcases h : s.tags.find? (fun tg => tg.name == nm) with - | tg
  · simp only [h]
    rw [List.find?_eq_none] at h
    refine ⟨by simp, by simp, ?_⟩
    intro tg2 htg2 hname
    rw [List.mem_append] at htg2
    rcases htg2 with h2 | h2
    · exact absurd (by simp [hname]) (h tg2 h2)
    · simpa using h2
  · simp only [h]
    have hp := List.find?_some h
    have hmem := List.mem_of_find?_eq_some h
    have hpn : tg.name = nm := by simpa using hp
    refine ⟨hpn, hmem, ?_⟩
    intro tg2 htg2 hname2
    refine List.inj_on_of_nodup_map hnames htg2 hmem ?_
    rw [hname2]
    exact hpn.symm

lemma pairRowCount_addTag (s : DB) (tid nm : String)
    (hnames : (s.tags.map Tag.name).Nodup) (hrows : s.todoTags.Nodup) :
    pairRowCount (AddTagToTodo s tid nm) tid nm = 1 := by
  obtain ⟨hname, hmem, huniq⟩ := getOrCreateTag_props s nm hnames
  rcases hg : GetOrCreateTag s nm with ⟨tg, s1⟩
  rw [hg] at hname hmem huniq
  have httags : s1.todoTags = s.todoTags := by
    have h := getOrCreateTag_todoTags s nm
    rw [hg] at h
    exact h
  set v : TodoTag := { todoId := tid, tagId := tg.id } with hv
  have hpred : ∀ tt : TodoTag, (tt.todoId == tid &&
      s1.tags.any (fun x => x.id == tt.tagId && x.name == nm)) = (tt == v) := by
    intro tt
    rw [Bool.eq_iff_iff]
    simp only [Bool.and_eq_true, List.any_eq_true, beq_iff_eq]
    constructor
    · rintro ⟨h1, x, hx, hxid, hxnm⟩
      have hxeq : x = tg := huniq x hx hxnm
      rw [hv]
      cases tt
      simp only [TodoTag.mk.injEq]
      rw [hxeq] at hxid
      exact ⟨h1, hxid.symm⟩
    · intro h
      rw [h]
      exact ⟨rfl, tg, hmem, rfl, hname⟩
  by_cases hc : s1.todoTags.any (fun tt => tt.todoId == tid && tt.tagId == tg.id)
  · have h1 : AddTagToTodo s tid nm = s1 := by
      unfold AddTagToTodo
      rw [hg]
      exact if_pos hc
    have hvmem : v ∈ s1.todoTags := by
      rw [List.any_eq_true] at hc
      obtain ⟨tt, httmem, htt⟩ := hc
      simp only [Bool.and_eq_true, beq_iff_eq] at htt
      have : tt = v := by
        rw [hv]
        cases tt
        simp only [TodoTag.mk.injEq]
        exact ⟨htt.1, htt.2⟩
      rw [← this]
      exact httmem
    rw [h1]
    unfold pairRowCount
    rw [List.filter_congr (fun tt _ => hpred tt), ← List.countP_eq_length_filter]
    rw [show (s1.todoTags.countP (fun tt => tt == v)) = s1.todoTags.count v from rfl]
    rw [httags] at hvmem ⊢
    exact List.count_eq_one_of_mem hrows hvmem
  · have h1 : AddTagToTodo s tid nm = { s1 with todoTags := s1.todoTags ++ [v] } := by
      unfold AddTagToTodo
      rw [hg]
      exact if_neg hc
    have hvnot : v ∉ s1.todoTags := by
      intro hvin
      refine hc ?_
      rw [List.any_eq_true]
      exact ⟨v, hvin, by simp⟩
    rw [h1]
    unfold pairRowCount
    rw [List.filter_congr (fun tt _ => hpred tt), ← List.countP_eq_length_filter]
    rw [show ((s1.todoTags ++ [v]).countP (fun tt => tt == v))
        = (s1.todoTags ++ [v]).count v from rfl]
    rw [List.count_append]
    rw [List.count_eq_zero.mpr hvnot]
    simp

/-- C6: `AddTagToTodo` is idempotent on the whole database state — the
second and every further identical call changes nothing — and, starting
from any state satisfying the schema's uniqueness constraints (unique
tag names, primary-keyed association rows), one call leaves exactly one
association row for the task/label pair. -/
theorem addTagToTodo_idempotent_spec (s : DB) (tid nm : String)
    (hnames : (s.tags.map Tag.name).Nodup) (hrows : s.todoTags.Nodup) :
    AddTagToTodo (AddTagToTodo s tid nm) tid nm = AddTagToTodo s tid nm ∧
    (∀ k, Nat.iterate (fun st => AddTagToTodo st tid nm) (k + 1) s = AddTagToTodo s tid nm) ∧
    pairRowCount (AddTagToTodo s tid nm) tid nm = 1 := by
  refine ⟨addTagToTodo_idem s tid nm, ?_, pairRowCount_addTag s tid nm hnames hrows⟩
  have haux : ∀ k s', Nat.iterate (fun st => AddTagToTodo st tid nm) k
      (AddTagToTodo s' tid nm) = AddTagToTodo s' tid nm := by
    intro k
    induction k with
    | zero => intro s'; rfl
    | succ k ih =>
        intro s'
        show Nat.iterate _ k (AddTagToTodo (AddTagToTodo s' tid nm) tid nm) = _
        rw [addTagToTodo_idem s' tid nm]
        exact ih s'
  intro k
  show Nat.iterate _ k (AddTagToTodo s tid nm) = _
  exact haux k s

/-- Witness for C6 at a concrete state: an empty database, adding the
label "bug" to a fixed todo id twice. -/
theorem addTagToTodo_idempotent_witness :
    AddTagToTodo (AddTagToTodo ⟨[], [], [], []⟩ "t1" "bug") "t1" "bug" =
      AddTagToTodo (⟨[], [], [], []⟩ : DB) "t1" "bug" ∧
    pairRowCount (AddTagToTodo ⟨[], [], [], []⟩ "t1" "bug") "t1" "bug" = 1 := by
  have h := addTagToTodo_idempotent_spec ⟨[], [], [], []⟩ "t1" "bug"
    (by simp) (by simp)
  exact ⟨h.1, h.2.2⟩

lemma applyUpdates_id (todo : Todo) (d p n : Option String) (dd : Option Int) (now : Int) :
    (applyUpdates todo d p n dd now).id = todo.id := by
  cases d <;> cases p <;> cases n <;> cases dd <;> rfl

lemma applyUpdates_updatedAt (todo : Todo) (d p n : Option String) (dd : Option Int)
    (now : Int) : (applyUpdates todo d p n dd now).updatedAt = now := by
  cases d <;> cases p <;> cases n <;> cases dd <;> rfl

lemma find?_map_overwrite (l : List Todo) (tid : String) (todo u : Todo)
    (h : l.find? (fun t => t.id == tid) = some todo) (hu : u.id = tid) :
    (l.map (fun t => if t.id == u.id then overwrite t u else t)).find?
        (fun t => t.id == tid) = some (overwrite todo u) := by
  induction l with
  | nil => simp at h
  | cons b l ih =>
      by_cases hb : (b.id == tid) = true
      · rw [@List.find?_cons_of_pos Todo (fun t => t.id == tid) b l hb] at h
        injection h with h
        subst h
        have hcond : (b.id == u.id) = true := by
          rw [hu]
          exact hb
        rw [List.map_cons, if_pos hcond,
          @List.find?_cons_of_pos Todo (fun t => t.id == tid) (overwrite b u) _ hb]
      · rw [@List.find?_cons_of_neg Todo (fun t => t.id == tid) b l hb] at h
        have hstep : ((if (b.id == u.id) = true then overwrite b u else b).id == tid) = false := by
          by_cases hc : (b.id == u.id) = true
          · rw [if_pos hc]
            simpa using hb
          · rw [if_neg hc]
            simpa using hb
        rw [List.map_cons,
          @List.find?_cons_of_neg Todo (fun t => t.id == tid)
            (if (b.id == u.id) = true then overwrite b u else b) _
            (by show ¬((if (b.id == u.id) = true then overwrite b u else b).id == tid) = true
                rw [hstep]
                simp),
          ih h]

lemma getTodoByID_updateTodo (s : DB) (tid : String) (todo u : Todo)
    (h : GetTodoByID s.todos tid = some todo) (hu : u.id = tid) :
    GetTodoByID (UpdateTodo s u).todos tid = some (overwrite todo u) :=
  find?_map_overwrite s.todos tid todo u h hu

lemma getTodoByID_id {todos : List Todo} {tid : String} {todo : Todo}
    (h : GetTodoByID todos tid = some todo) : todo.id = tid := by
  have := List.find?_some h
  simpa using this

lemma foldl_statsStep (now : Int) (l : List Todo) (acc : StatsSummary) :
    l.foldl (statsStep now) acc =
      { totalTodos := acc.totalTodos
        pending := acc.pending + l.countP (fun t => !t.done)
        completed := acc.completed + l.countP (fun t => t.done)
        overdue := acc.overdue + l.countP
          (fun t => !t.done && t.dueDate.any (fun d => decide (d < now))) } := by
  induction l generalizing acc with
  | nil => simp
  | cons t l ih =>
      rw [List.foldl_cons, ih]
      cases acc
      simp only [statsStep, List.countP_cons]
      by_cases hd : t.done = true <;>
        by_cases hov : (t.dueDate.any (fun d => decide (d < now))) = true <;>
          simp [hd, hov, StatsSummary.mk.injEq] <;> omega

/-- C7: the stats total always equals pending plus completed, with a
todo counted pending exactly when its done flag is false and completed
exactly when it is true (as the filter-lengths over the scanned list). -/
theorem calculateStats_total_spec (s : DB) (now : Int) :
    (calculateStats s now).totalTodos =
      (calculateStats s now).pending + (calculateStats s now).completed ∧
    (calculateStats s now).pending =
      ((ListTodos s none none none none).filter (fun t => !t.done)).length ∧
    (calculateStats s now).completed =
      ((ListTodos s none none none none).filter (fun t => t.done)).length := by
  unfold calculateStats calculateSummary
  rw [foldl_statsStep]
  refine ⟨?_, ?_, ?_⟩
  · simp only [Nat.zero_add]
    rw [List.length_eq_countP_add_countP (fun t => t.done), Nat.add_comm]
    have hfun : (fun a : Todo => decide (¬a.done = true)) = (fun t : Todo => !t.done) := by
      funext t
      cases h : t.done <;> simp [h]
    rw [hfun]
  · simp only [Nat.zero_add, List.countP_eq_length_filter]
  · simp only [Nat.zero_add, List.countP_eq_length_filter]

/-- C8: the stats overdue counter counts exactly the todos whose done
flag is false, whose due timestamp is set, and whose due timestamp is
strictly before `now` — a full-timestamp strict comparison, with no
truncation to midnight. -/
theorem calculateStats_overdue_spec (s : DB) (now : Int) :
    (calculateStats s now).overdue =
      ((ListTodos s none none none none).filter
        (fun t => !t.done && t.dueDate.any (fun d => decide (d < now)))).length := by
  unfold calculateStats calculateSummary
  rw [foldl_statsStep]
  simp only [Nat.zero_add, List.countP_eq_length_filter]

/-- C5 counterexample: marking `sampleTodoC` (last modified at 5) done
at time 10 succeeds but writes the task back with last-modified
timestamp still 5, not 10 — `MarkDone` touches only the completion
fields and `handleMarkDone` never assigns `updated_at`. -/
theorem markDone_keeps_updatedAt_counterexample :
    (handleMarkDone sampleDB "cccc1111-2222-3333-4444-555566667777" 10).map
      (fun st => st.todos.map Todo.updatedAt) = .ok [5, 2] ∧ (5 : Int) ≠ 10 := by
  constructor
  · rfl
  · decide

/-- C5 as amended: `handleUpdateTodo` refreshes the task's
last-modified timestamp to the operation time, but `handleMarkDone` and
`handleMarkUndone` write the task back with its last-modified timestamp
unchanged (they set only the completion flag and completion
timestamp). -/
theorem updatedAt_refresh_amended_spec (s : DB) (tid : String) (todo : Todo)
    (h : GetTodoByID s.todos tid = some todo) (now : Int)
    (d p n : Option String) (dd : Option Int) (hp : validatePriority p = true) :
    (∃ s1, handleUpdateTodo s tid d p n dd now = .ok s1 ∧
      ∃ t1, GetTodoByID s1.todos tid = some t1 ∧ t1.updatedAt = now) ∧
    (∃ s2, handleMarkDone s tid now = .ok s2 ∧
      ∃ t2, GetTodoByID s2.todos tid = some t2 ∧ t2.updatedAt = todo.updatedAt ∧
        t2.done = true ∧ t2.completedAt = some now) ∧
    (∃ s3, handleMarkUndone s tid = .ok s3 ∧
      ∃ t3, GetTodoByID s3.todos tid = some t3 ∧ t3.updatedAt = todo.updatedAt ∧
        t3.done = false ∧ t3.completedAt = none) := by
  have hid : todo.id = tid := getTodoByID_id h
  refine ⟨?_, ?_, ?_⟩
  · refine ⟨UpdateTodo s (applyUpdates todo d p n dd now), ?_, ?_⟩
    · simp only [handleUpdateTodo, h]
      rw [if_pos hp]
    · refine ⟨overwrite todo (applyUpdates todo d p n dd now), ?_, ?_⟩
      · exact getTodoByID_updateTodo s tid todo _ h (by rw [applyUpdates_id, hid])
      · show (applyUpdates todo d p n dd now).updatedAt = now
        exact applyUpdates_updatedAt todo d p n dd now
  · refine ⟨UpdateTodo s (MarkDone todo now), ?_, ?_⟩
    · unfold handleMarkDone
      rw [h]
    · refine ⟨overwrite todo (MarkDone todo now), ?_, rfl, rfl, rfl⟩
      exact getTodoByID_updateTodo s tid todo _ h hid
  · refine ⟨UpdateTodo s (MarkUndone todo), ?_, ?_⟩
    · unfold handleMarkUndone
      rw [h]
    · refine ⟨overwrite todo (MarkUndone todo), ?_, rfl, rfl, rfl⟩
      exact getTodoByID_updateTodo s tid todo _ h hid

/-- Witness for the amended C5 at the concrete state `sampleDB`,
updating / completing / reopening `sampleTodoC` at time 10. -/
theorem updatedAt_refresh_amended_witness :
    (∃ s1, handleUpdateTodo sampleDB "cccc1111-2222-3333-4444-555566667777"
        (some "new text") none none none 10 = .ok s1 ∧
      ∃ t1, GetTodoByID s1.todos "cccc1111-2222-3333-4444-555566667777" = some t1 ∧
        t1.updatedAt = 10) ∧
    (∃ s2, handleMarkDone sampleDB "cccc1111-2222-3333-4444-555566667777" 10 = .ok s2 ∧
      ∃ t2, GetTodoByID s2.todos "cccc1111-2222-3333-4444-555566667777" = some t2 ∧
        t2.updatedAt = sampleTodoC.updatedAt ∧ t2.done = true ∧ t2.completedAt = some 10) := by
  have h := updatedAt_refresh_amended_spec sampleDB "cccc1111-2222-3333-4444-555566667777"
    sampleTodoC (by rfl) 10 (some "new text") none none none (by rfl)
  exact ⟨h.1, h.2.1⟩

/-- C10: invoking mark-done on an already-completed task succeeds, the
completion flag stays true, and the completion timestamp is overwritten
with the operation time — so a repeat at a different time changes the
completion timestamp. -/
theorem markDone_already_completed_spec (s : DB) (tid : String) (todo : Todo)
    (now c0 : Int) (h : GetTodoByID s.todos tid = some todo)
    (_hdone : todo.done = true) (hc : todo.completedAt = some c0) :
    ∃ s', handleMarkDone s tid now = .ok s' ∧
      ∃ t', GetTodoByID s'.todos tid = some t' ∧ t'.done = true ∧
        t'.completedAt = some now ∧ (now ≠ c0 → t'.completedAt ≠ todo.completedAt) := by
  have hid : todo.id = tid := getTodoByID_id h
  refine ⟨UpdateTodo s (MarkDone todo now), ?_, ?_⟩
  · unfold handleMarkDone
    rw [h]
  · refine ⟨overwrite todo (MarkDone todo now), ?_, rfl, rfl, ?_⟩
    · exact getTodoByID_updateTodo s tid todo _ h hid
    · intro hne
      show some now ≠ todo.completedAt
      rw [hc]
      intro hcon
      injection hcon with hcon
      exact hne hcon

/-- Witness for C10: marking the already-completed `sampleTodoD`
(completed at 3) done again at time 10. -/
theorem markDone_already_completed_witness :
    ∃ s', handleMarkDone sampleDB "dddd1111-2222-3333-4444-555566667777" 10 = .ok s' ∧
      ∃ t', GetTodoByID s'.todos "dddd1111-2222-3333-4444-555566667777" = some t' ∧
        t'.done = true ∧ t'.completedAt = some 10 ∧
        ((10 : Int) ≠ 3 → t'.completedAt ≠ sampleTodoD.completedAt) := by
  have h := markDone_already_completed_spec sampleDB "dddd1111-2222-3333-4444-555566667777"
    sampleTodoD 10 3 (by rfl) (by rfl) (by rfl)
  exact h

/-- C9: the CLI add command rejects an empty description, but the MCP
`add_todo` tool accepts it — invoked with an empty description it
returns success and inserts a task whose description is empty, so the
claimed everywhere-enforced minimum-length validation does not hold for
the create-task tool. -/
theorem addTodo_empty_description_bug :
    addCmdAccepts "" = false ∧
    (handleAddTodo sampleDefaultDB "" none none [] none none
        "00000000-0000-0000-0000-0000000000ff"
        "eeee1111-2222-3333-4444-555566667777" 7).map
      (fun r => r.2.todos.map Todo.description) = .ok [""] := by
  exact ⟨rfl, rfl⟩

end Toki
